import Mathlib

/-!
Verification development for the discover-fiply repository.

The definitions below are a shallow embedding of the two source files
`src/main.rs` and `src/fip_client.rs`:
* the JSON envelope walk `go_down` and the page parser `parse_songs`
  (fip_client.rs),
* the cursor codec: base64 of the decimal string of a seconds-since-epoch
  value (`build_query` in fip_client.rs encodes, lines 64-66 of main.rs
  decode),
* the bounded-retry combinator from the `retry` crate as invoked by
  `fetch_last_songs` (main.rs lines 54-61),
* the pagination loop of `fetch_last_songs` (main.rs lines 29-82),
* the occurrence counter `count_occurences` (main.rs lines 88-104).

Machine integers are modelled as `Nat` with explicit bounds where the
source checks them; panics (`unwrap` on `None`/`Err`) are modelled as
`none`; strings are compared byte-lexicographically as Rust's `String::cmp`
does.
-/

namespace DiscoverFiply

/-- Model of the `TimelineItem` struct of fip_client.rs (fields `album`,
`subtitle`, `interpreters`, `year : Option<u16>`, `start_time : u32`). -/
structure TimelineItem where
  album : String
  subtitle : String
  interpreters : List String
  year : Option Nat
  start_time : Nat
deriving DecidableEq

/-- Model of the `PageInfo` struct of fip_client.rs (serde renames
`endCursor` / `hasNextPage`). -/
structure PageInfo where
  end_cursor : String
  has_next_page : Bool
deriving DecidableEq

/-- Model of the `FipClientError` enum of fip_client.rs. -/
inductive FipClientError where
  | jsonError
  | weirdFipJsonError
  | fipError
deriving DecidableEq

/-- Model of `serde_json::value::Value` as far as the claims need it
(numbers are integers; the records the parser accepts only use integral
numbers). -/
inductive Json where
  | null
  | bool (b : Bool)
  | num (n : Int)
  | str (s : String)
  | arr (elems : List Json)
  | obj (fields : List (String × Json))

/-- Model of `Value::as_object`. -/
def Json.asObj : Json → Option (List (String × Json))
  | .obj fields => some fields
  | _ => none

/-- Model of `Value::as_str` / deserializing a `String` field. -/
def Json.asStr : Json → Option String
  | .str s => some s
  | _ => none

/-- Model of deserializing a `bool` field. -/
def Json.asBool : Json → Option Bool
  | .bool b => some b
  | _ => none

/-- Model of `Map::get` on a JSON object. -/
def jsonGet (fields : List (String × Json)) (key : String) : Option Json :=
  (fields.find? (fun p => p.1 == key)).map (fun p => p.2)

/-- Model of `go_down` (fip_client.rs lines 37-49): walk
`data.timelineCursor` and return the `edges` and `pageInfo` values. -/
def go_down (value : Json) : Option (Json × Json) := do
  let o1 ← value.asObj
  let dataV ← jsonGet o1 "data"
  let o2 ← dataV.asObj
  let tlc ← jsonGet o2 "timelineCursor"
  let root ← tlc.asObj
  let edges ← jsonGet root "edges"
  let page_info ← jsonGet root "pageInfo"
  some (edges, page_info)

/-- Model of serde deserialization of a `Vec<String>` field. -/
def parseStringList : Json → Option (List String)
  | .arr xs => xs.mapM Json.asStr
  | _ => none

/-- Model of serde deserialization of an unsigned integer field with an
exclusive upper bound (`u16` gets bound 65536, `u32` gets 4294967296). -/
def parseBoundedNat (bound : Nat) : Json → Option Nat
  | .num n => if 0 ≤ n ∧ n < (bound : Int) then some n.toNat else none
  | _ => none

/-- Model of serde deserialization of an `Option<u16>` field: a missing or
null field is `none`; a present non-null field must be a valid `u16`. -/
def parseOptNat (bound : Nat) : Option Json → Option (Option Nat)
  | none => some none
  | some .null => some none
  | some j => (parseBoundedNat bound j).map some

/-- Model of serde deserialization of a `TimelineItem` from a JSON value:
every non-`Option` field is required, unknown fields are ignored. -/
def parseTimelineItem (j : Json) : Option TimelineItem := do
  let o ← j.asObj
  let album ← (jsonGet o "album").bind Json.asStr
  let subtitle ← (jsonGet o "subtitle").bind Json.asStr
  let interpreters ← (jsonGet o "interpreters").bind parseStringList
  let year ← parseOptNat 65536 (jsonGet o "year")
  let start_time ← (jsonGet o "start_time").bind (parseBoundedNat 4294967296)
  some ⟨album, subtitle, interpreters, year, start_time⟩

/-- Model of serde deserialization of a `TimeLineItemEdge` (an object with
a `node` field holding the record), returning the inner item as
`parse_songs` does via `.map(|e| e.node)`. -/
def parseEdge (j : Json) : Option TimelineItem := do
  let o ← j.asObj
  let node ← jsonGet o "node"
  parseTimelineItem node

/-- Model of serde deserialization of a `PageInfo`. -/
def parsePageInfo (j : Json) : Option PageInfo := do
  let o ← j.asObj
  let ec ← (jsonGet o "endCursor").bind Json.asStr
  let hnp ← (jsonGet o "hasNextPage").bind Json.asBool
  some ⟨ec, hnp⟩

/-- Model of `edges.as_array().iter().flat_map(|vs| vs.into_iter())` in
`parse_songs`: a non-array `edges` value yields no records. -/
def edgeValues : Json → List Json
  | .arr xs => xs
  | _ => []

/-- Model of `parse_songs` (fip_client.rs lines 52-81): locate the
envelope via `go_down` (else `WeirdFipJsonError`), parse each edge
independently dropping failures, then parse the page info (else
`JsonError`). -/
def parse_songs (value : Json) : Except FipClientError (List TimelineItem × PageInfo) :=
  match go_down value with
  | none => .error .weirdFipJsonError
  | some (edges, info) =>
    let es := (edgeValues edges).filterMap parseEdge
    match parsePageInfo info with
    | none => .error .jsonError
    | some page_info => .ok (es, page_info)

/-- The standard base64 alphabet as byte values: A-Z, a-z, 0-9, +, /. -/
def b64chars : List Nat :=
  (List.range 26).map (fun i => 65 + i) ++ (List.range 26).map (fun i => 97 + i) ++
    (List.range 10).map (fun i => 48 + i) ++ [43, 47]

/-- Byte value of the base64 character for a sextet (61 is the padding
byte and is never produced for a sextet below 64). -/
def sextetByte (s : Nat) : Nat := b64chars.getD s 61

/-- Sextet value of a base64 alphabet byte, `none` for bytes outside the
alphabet (in particular for the padding byte 61). -/
def byteSextet (b : Nat) : Option Nat := b64chars.indexOf? b

/-- Model of `base64::encode` on a byte list: standard alphabet with
padding, three input bytes per four output bytes. -/
def encodeB64 : List Nat → List Nat
  | [] => []
  | [a] => [sextetByte (a / 4), sextetByte (a % 4 * 16), 61, 61]
  | [a, b] => [sextetByte (a / 4), sextetByte (a % 4 * 16 + b / 16), sextetByte (b % 16 * 4), 61]
  | a :: b :: c :: rest =>
    sextetByte (a / 4) :: sextetByte (a % 4 * 16 + b / 16) ::
      sextetByte (b % 16 * 4 + c / 64) :: sextetByte (c % 64) :: encodeB64 rest

/-- Model of `base64::decode` on a byte list: four base64 bytes per three
output bytes, padding allowed only at the end. -/
def decodeB64 : List Nat → Option (List Nat)
  | [] => some []
  | c1 :: c2 :: c3 :: c4 :: rest =>
    match byteSextet c1, byteSextet c2 with
    | some s1, some s2 =>
      if c3 = 61 then
        (if c4 = 61 ∧ rest = [] then some [s1 * 4 + s2 / 16] else none)
      else
        match byteSextet c3 with
        | some s3 =>
          if c4 = 61 then
            (if rest = [] then some [s1 * 4 + s2 / 16, s2 % 16 * 16 + s3 / 4] else none)
          else
            match byteSextet c4 with
            | some s4 =>
              (decodeB64 rest).map
                (fun l => (s1 * 4 + s2 / 16) :: (s2 % 16 * 16 + s3 / 4) :: (s3 % 4 * 64 + s4) :: l)
            | none => none
        | none => none
    | _, _ => none
  | _ => none

/-- Decimal digit bytes of a positive number, most significant first
(empty for 0). -/
def natDigits (n : Nat) : List Nat :=
  if h : n = 0 then []
  else natDigits (n / 10) ++ [48 + n % 10]
decreasing_by exact Nat.div_lt_self (Nat.pos_of_ne_zero h) (by omega)

/-- Model of `u64::to_string` as a byte list. -/
def natToStringBytes (n : Nat) : List Nat :=
  if n = 0 then [48] else natDigits n

/-- Accumulating decimal parser over digit bytes; fails on a non-digit. -/
def parseDecAux : List Nat → Nat → Option Nat
  | [], acc => some acc
  | b :: bs, acc => if 48 ≤ b ∧ b ≤ 57 then parseDecAux bs (acc * 10 + (b - 48)) else none

/-- Model of `u64::from_str_radix(s, 10)` on the UTF-8 bytes of `s`: an
optional leading plus sign, at least one digit, value below 2^64. -/
def parseU64Radix10 (l : List Nat) : Option Nat :=
  match l with
  | [] => none
  | b :: bs =>
    let digits := if b = 43 then bs else b :: bs
    if digits = [] then none
    else (parseDecAux digits 0).bind (fun v => if v < 2 ^ 64 then some v else none)

/-- Model of the cursor encoding in `build_query` (fip_client.rs lines
84-97): `base64::encode(&time_sec.to_string())`. -/
def encode_cursor (t : Nat) : List Nat := encodeB64 (natToStringBytes t)

/-- Model of the cursor decoding in `fetch_last_songs` (main.rs lines
64-65): base64-decode then `u64::from_str_radix(_, 10)`; `none` models the
`unwrap` panics on either failure. -/
def decode_cursor (bytes : List Nat) : Option Nat :=
  (decodeB64 bytes).bind parseU64Radix10

/-- Cursor decoding applied to a cursor held as a string (code points as
byte values; base64 and digits are ASCII). -/
def decodeCursorStr (s : String) : Option Nat :=
  decode_cursor (s.toList.map Char.toNat)

/-- Core loop of the `retry` crate's `retry(iterable, operation)`: the
operation runs once, and each remaining delay item buys one further
attempt after a failure; the second component counts attempts made (the
crate's `tries`). The operation takes the attempt index so that a stateful
transport can be modelled. -/
def retryGo {E A : Type} (op : Nat → Except E A) : List Nat → Nat → Except E A × Nat
  | delays, k =>
    match op k with
    | .ok a => (.ok a, k + 1)
    | .error e =>
      match delays with
      | [] => (.error e, k + 1)
      | _ :: rest => retryGo op rest (k + 1)

/-- Model of the `retry` crate's `retry` entry point. -/
def retryCrate {E A : Type} (delays : List Nat) (op : Nat → Except E A) : Except E A × Nat :=
  retryGo op delays 0

/-- The delay iterable `delay::Fixed::from_millis(100).take(3)` used at
main.rs lines 54 and 158: three fixed 100ms delays. -/
def fipRetryDelays : List Nat := [100, 100, 100]

/-- The `max_pages` constant of `fetch_last_songs` (main.rs line 34). -/
def max_pages : Nat := 100

/-- Model of the `loop` of `fetch_last_songs` (main.rs lines 42-79).
`resp itrs current` is the outcome of the (already retry-wrapped) fetch of
page `itrs` issued at time `current`; quantifying over `resp` quantifies
over every possible sequence of upstream responses. The result pairs the
collected items (`none` models the panic of an `unwrap` on a failed fetch
or an undecodable cursor) with the list of times at which fetches were
issued, in order. -/
def fetchLoop (resp : Nat → Nat → Except FipClientError (List TimelineItem × PageInfo))
    (untilT : Nat) (itrs : Nat) (current : Nat) (acc : List TimelineItem) :
    Option (List TimelineItem) × List Nat :=
  match resp itrs current with
  | .error _ => (none, [current])
  | .ok page =>
    let acc2 := acc ++ page.1
    match decodeCursorStr page.2.end_cursor with
    | none => (none, [current])
    | some end_sec =>
      if h : max_pages ≤ itrs ∨ page.2.has_next_page = false ∨ end_sec < untilT then
        (some acc2, [current])
      else
        let rest := fetchLoop resp untilT (itrs + 1) end_sec acc2
        (rest.1, current :: rest.2)
termination_by max_pages - itrs
decreasing_by
  rcases not_or.mp h with ⟨h1, _⟩
  simp only [max_pages] at *
  omega

/-- Model of `fetch_last_songs` (main.rs lines 29-82): walk backward from
`now` until `now - dur`, each page fetch wrapped in the bounded retry.
`transport i t k` is attempt `k` of fetching page `i` at time `t`. -/
def fetch_last_songs
    (transport : Nat → Nat → Nat → Except FipClientError (List TimelineItem × PageInfo))
    (now dur : Nat) : Option (List TimelineItem) × List Nat :=
  fetchLoop (fun i t => (retryCrate fipRetryDelays (transport i t)).1) (now - dur) 0 now []

/-- Byte-lexicographic order on byte lists, modelling Rust's
`Ord for String` (`a ≤ b` iff `a.cmp(&b) != Greater`). -/
def bytesLeB : List Nat → List Nat → Bool
  | [], _ => true
  | _ :: _, [] => false
  | a :: as, b :: bs => if a < b then true else if b < a then false else bytesLeB as bs

/-- String comparison as Rust's `String::cmp`: lexicographic on the
scalar-value sequence, which orders like the UTF-8 byte sequence. -/
def strLeB (a b : String) : Bool :=
  bytesLeB (a.toList.map Char.toNat) (b.toList.map Char.toNat)

/-- The comparator of `songs.sort_by(|a, b| a.subtitle.cmp(&b.subtitle))`
(main.rs line 89). -/
def titleLe (a b : TimelineItem) : Prop := strLeB a.subtitle b.subtitle = true

instance : DecidableRel titleLe :=
  fun a b => inferInstanceAs (Decidable (strLeB a.subtitle b.subtitle = true))

/-- The comparator of `counted.sort_by_key(|p| p.1)` (main.rs line 102). -/
def countLe (p q : TimelineItem × Nat) : Prop := p.2 ≤ q.2

instance : DecidableRel countLe := fun p q => inferInstanceAs (Decidable (p.2 ≤ q.2))

/-- The stable ascending-by-title sort performed at main.rs line 89
(Rust's `sort_by` is stable, as is insertion sort). -/
def sortSongs (songs : List TimelineItem) : List TimelineItem :=
  songs.insertionSort titleLe

/-- The `for s in songs` run-length loop of `count_occurences` (main.rs
lines 93-101): the final group held in `last_seen`/`count` when the list
runs out is never pushed, exactly as in the source. -/
def countLoop : List TimelineItem → TimelineItem → Nat → List (TimelineItem × Nat) →
    List (TimelineItem × Nat)
  | [], _, _, counted => counted
  | s :: rest, last_seen, count, counted =>
    if s.subtitle = last_seen.subtitle then countLoop rest last_seen (count + 1) counted
    else countLoop rest s 1 (counted ++ [(last_seen, count)])

/-- Model of `count_occurences` (main.rs lines 88-104): sort by title,
pop the last element as initial accumulator (`none` models the panic of
`pop().unwrap()` on an empty vector), run the counting loop, stable-sort
by count and reverse. The first component of the result is the final
state of the caller's vector (sorted, last element removed). -/
def count_occurences (songs : List TimelineItem) :
    Option (List TimelineItem × List (TimelineItem × Nat)) :=
  let sorted := sortSongs songs
  match sorted.getLast? with
  | none => none
  | some last_seen =>
    let counted := countLoop sorted.dropLast last_seen 1 []
    some (sorted.dropLast, (counted.insertionSort countLe).reverse)

/-- A play event with a given title and fixed other fields, for concrete
instances. -/
def mkItem (t : String) : TimelineItem := ⟨"", t, [], none, 0⟩

/-- A well-formed record wrapped in its edge, built like the fixture of
the repository's `test_parse_songs` test. -/
def goodEdgeJson : Json :=
  Json.obj [("node", Json.obj [("subtitle", .str "Cheney Lane"),
    ("album", .str "Cafe Kitsune mix"), ("interpreters", .arr [.str "Nostalgia 77"]),
    ("year", .num 2018), ("start_time", .num 1572251703)])]

/-- The item `goodEdgeJson` parses to. -/
def goodItem : TimelineItem :=
  ⟨"Cafe Kitsune mix", "Cheney Lane", ["Nostalgia 77"], some 2018, 1572251703⟩

/-- A record missing the required `subtitle` field, wrapped in its edge. -/
def badEdgeJson : Json :=
  Json.obj [("node", Json.obj [("album", .str "Cafe Kitsune mix"),
    ("interpreters", .arr [.str "Nostalgia 77"]), ("year", .num 2018),
    ("start_time", .num 1572251703)])]

/-- A well-formed `pageInfo` value. -/
def pageInfoJson : Json :=
  Json.obj [("endCursor", .str "MTU3NDY4OTI4Mg=="), ("hasNextPage", .bool true)]

/-- The page info `pageInfoJson` parses to. -/
def testPageInfo : PageInfo := ⟨"MTU3NDY4OTI4Mg==", true⟩

/-- The response envelope around a given `edges` value. -/
def envelopeJson (edges : Json) : Json :=
  Json.obj [("data", Json.obj [("timelineCursor",
    Json.obj [("edges", edges), ("pageInfo", pageInfoJson)])])]

/-- A transport whose every attempt fails. -/
def alwaysFailTransport :
    Nat → Nat → Nat → Except FipClientError (List TimelineItem × PageInfo) :=
  fun _ _ _ => .error .fipError

theorem retryGo_fail {E A : Type} (op : Nat → Except E A)
    (hfail : ∀ k, ∃ e, op k = Except.error e) :
    ∀ (ds : List Nat) (k : Nat), ∃ e, retryGo op ds k = (Except.error e, k + ds.length + 1)
  | [], k => by
    obtain ⟨e, he⟩ := hfail k
    exact ⟨e, by simp [retryGo, he]⟩
  | d :: rest, k => by
    obtain ⟨e, he⟩ := hfail k
    obtain ⟨e2, he2⟩ := retryGo_fail op hfail rest (k + 1)
    refine ⟨e2, ?_⟩
    simp only [retryGo, he, he2, List.length_cons]
    refine Prod.ext rfl ?_
    simp
    omega

/-- Claim C1 (evidence of the code bug): on the two-event input with
distinct titles `A` and `B`, `count_occurences` returns the single group
`[(B, 1)]`, so title `A` appears in no group and the counts sum to 1,
not to the input size 2. -/
theorem count_occurences_drops_title :
    count_occurences [mkItem "A", mkItem "B"] = some ([mkItem "A"], [(mkItem "B", 1)]) := by
  decide

/-- Claim C2 (evidence of the code bug): on input titles
`[A, B, A, C, B, A]`, `count_occurences` returns the descending groups
`[(A, 3), (C, 1)]` — the group `(B, 2)` is dropped (the final run of the
counting loop is never flushed), contradicting the specified
`[A(3), B(2), C(1)]`. -/
theorem count_occurences_example :
    count_occurences [mkItem "A", mkItem "B", mkItem "A", mkItem "C", mkItem "B", mkItem "A"] =
      some ([mkItem "A", mkItem "A", mkItem "A", mkItem "B", mkItem "B"],
        [(mkItem "A", 3), (mkItem "C", 1)]) := by
  decide

/-- Claim C3 (evidence of the code bug): on the empty input the model
returns `none`, which models the panic of `songs.pop().unwrap()` at
main.rs line 91 — the code does not return an empty result. -/
theorem count_occurences_empty_panics :
    count_occurences ([] : List TimelineItem) = none := rfl

/-- Claim C4 counterexample: against an always-failing transport the
retry wrapper built from `delay::Fixed::from_millis(100).take(3)` makes a
number of attempts different from 3. -/
theorem retry_not_three_attempts :
    (retryCrate fipRetryDelays (fun _ => (Except.error FipClientError.fipError :
      Except FipClientError (List TimelineItem × PageInfo)))).2 ≠ 3 := by
  decide

/-- Claim C4 (amended): the retry wrapper makes up to 4 attempts total
(one initial try plus one per configured delay; the delays are three
fixed 100ms waits); a fetch that fails on every attempt is observed as
exactly 4 attempts, surfaces as an error, and makes the whole collection
operation fail with no partial result. -/
theorem retry_four_attempts
    (transport : Nat → Nat → Nat → Except FipClientError (List TimelineItem × PageInfo))
    (now dur : Nat)
    (hfail : ∀ i t k, ∃ e, transport i t k = Except.error e) :
    (retryCrate fipRetryDelays (transport 0 now)).2 = 4 ∧
    (retryCrate fipRetryDelays (transport 0 now)).1.isOk = false ∧
    (fetch_last_songs transport now dur).1 = none ∧
    fipRetryDelays = List.replicate 3 100 := by
  obtain ⟨e, he⟩ := retryGo_fail (transport 0 now) (hfail 0 now) fipRetryDelays 0
  have hrc : retryCrate fipRetryDelays (transport 0 now) = (Except.error e, 4) := by
    rw [retryCrate, he]
    rfl
  refine ⟨by rw [hrc], by rw [hrc]; rfl, ?_, rfl⟩
  rw [fetch_last_songs, fetchLoop]
  simp only [hrc]

/-- Claim C4 witness: the amended statement at the concrete always-failing
transport. -/
theorem retry_four_attempts_witness :
    (retryCrate fipRetryDelays (alwaysFailTransport 0 0)).2 = 4 ∧
    (retryCrate fipRetryDelays (alwaysFailTransport 0 0)).1.isOk = false ∧
    (fetch_last_songs alwaysFailTransport 0 0).1 = none ∧
    fipRetryDelays = List.replicate 3 100 :=
  retry_four_attempts alwaysFailTransport 0 0
    (fun _ _ _ => ⟨FipClientError.fipError, rfl⟩)

/-- Claim C8: if the envelope is present with an `edges` array of one
record that parses and one that does not, and the page info parses, then
`parse_songs` succeeds with the single parsed item — the bad record is
dropped, not fatal. -/
theorem parse_songs_drops_bad_record (v good bad info : Json) (item : TimelineItem)
    (pi : PageInfo)
    (h1 : go_down v = some (Json.arr [good, bad], info))
    (h2 : parseEdge good = some item)
    (h3 : parseEdge bad = none)
    (h4 : parsePageInfo info = some pi) :
    parse_songs v = Except.ok ([item], pi) := by
  simp only [parse_songs, h1, edgeValues, List.filterMap_cons, h2, h3, List.filterMap_nil, h4]

/-- Claim C8 witness: a concrete envelope holding one well-formed record
and one record missing the required `subtitle` field yields a one-element
page. -/
theorem parse_songs_drops_bad_record_witness :
    parse_songs (envelopeJson (Json.arr [goodEdgeJson, badEdgeJson])) =
      Except.ok ([goodItem], testPageInfo) :=
  parse_songs_drops_bad_record _ goodEdgeJson badEdgeJson pageInfoJson goodItem testPageInfo
    rfl rfl rfl rfl

/-- Claim C10: if the envelope is present, `edges` is not a JSON array and
the page info parses, then `parse_songs` succeeds with an empty record
list — a non-array `edges` is silently treated as zero records. -/
theorem parse_songs_nonarray_edges (v edges info : Json) (pi : PageInfo)
    (h1 : go_down v = some (edges, info))
    (h2 : ∀ xs, edges ≠ Json.arr xs)
    (h3 : parsePageInfo info = some pi) :
    parse_songs v = Except.ok ([], pi) := by
  have he : edgeValues edges = [] := by
    cases edges <;> first | rfl | exact absurd rfl (h2 _)
  simp only [parse_songs, h1, he, List.filterMap_nil, h3]

/-- Claim C10 witness: a concrete envelope whose `edges` value is a string
yields `Ok` with an empty record list. -/
theorem parse_songs_nonarray_edges_witness :
    parse_songs (envelopeJson (Json.str "edges-as-text")) = Except.ok ([], testPageInfo) :=
  parse_songs_nonarray_edges _ (Json.str "edges-as-text") pageInfoJson testPageInfo
    rfl (fun _ h => Json.noConfusion h) rfl

theorem byteSextet_sextetByte : ∀ s, s < 64 → byteSextet (sextetByte s) = some s := by
  decide

theorem sextetByte_ne_61 : ∀ s, s < 64 → sextetByte s ≠ 61 := by
  decide

theorem decodeB64_encodeB64 :
    ∀ l : List Nat, (∀ x ∈ l, x < 256) → decodeB64 (encodeB64 l) = some l
  | [], _ => rfl
  | [a], h => by
    have ha : a < 256 := h a (by simp)
    have e1 : byteSextet (sextetByte (a / 4)) = some (a / 4) :=
      byteSextet_sextetByte _ (by omega)
    have e2 : byteSextet (sextetByte (a % 4 * 16)) = some (a % 4 * 16) :=
      byteSextet_sextetByte _ (by omega)
    simp only [encodeB64, decodeB64, e1, e2, if_pos rfl, and_self, if_true]
    simp only [Option.some.injEq, List.cons.injEq, and_true]
    omega
  | [a, b], h => by
    have ha : a < 256 := h a (by simp)
    have hb : b < 256 := h b (by simp)
    have e1 : byteSextet (sextetByte (a / 4)) = some (a / 4) :=
      byteSextet_sextetByte _ (by omega)
    have e2 : byteSextet (sextetByte (a % 4 * 16 + b / 16)) = some (a % 4 * 16 + b / 16) :=
      byteSextet_sextetByte _ (by omega)
    have e3 : byteSextet (sextetByte (b % 16 * 4)) = some (b % 16 * 4) :=
      byteSextet_sextetByte _ (by omega)
    have n3 : ¬ sextetByte (b % 16 * 4) = 61 := sextetByte_ne_61 _ (by omega)
    simp only [encodeB64, decodeB64, e1, e2, e3, if_neg n3, if_pos rfl, if_true]
    simp only [Option.some.injEq, List.cons.injEq, and_true]
    omega
  | a :: b :: c :: d :: rest, h => by
    have ih := decodeB64_encodeB64 (d :: rest) (fun x hx => h x (by simp at hx ⊢; tauto))
    have ha : a < 256 := h a (by simp)
    have hb : b < 256 := h b (by simp)
    have hc : c < 256 := h c (by simp)
    have e1 : byteSextet (sextetByte (a / 4)) = some (a / 4) :=
      byteSextet_sextetByte _ (by omega)
    have e2 : byteSextet (sextetByte (a % 4 * 16 + b / 16)) = some (a % 4 * 16 + b / 16) :=
      byteSextet_sextetByte _ (by omega)
    have e3 : byteSextet (sextetByte (b % 16 * 4 + c / 64)) = some (b % 16 * 4 + c / 64) :=
      byteSextet_sextetByte _ (by omega)
    have e4 : byteSextet (sextetByte (c % 64)) = some (c % 64) :=
      byteSextet_sextetByte _ (by omega)
    have n3 : ¬ sextetByte (b % 16 * 4 + c / 64) = 61 := sextetByte_ne_61 _ (by omega)
    have n4 : ¬ sextetByte (c % 64) = 61 := sextetByte_ne_61 _ (by omega)
    simp only [encodeB64, decodeB64, e1, e2, e3, e4, if_neg n3, if_neg n4, ih,
      Option.map_some']
    simp only [Option.some.injEq, List.cons.injEq, and_true]
    omega
  | a :: b :: c :: [], h => by
    have ha : a < 256 := h a (by simp)
    have hb : b < 256 := h b (by simp)
    have hc : c < 256 := h c (by simp)
    have e1 : byteSextet (sextetByte (a / 4)) = some (a / 4) :=
      byteSextet_sextetByte _ (by omega)
    have e2 : byteSextet (sextetByte (a % 4 * 16 + b / 16)) = some (a % 4 * 16 + b / 16) :=
      byteSextet_sextetByte _ (by omega)
    have e3 : byteSextet (sextetByte (b % 16 * 4 + c / 64)) = some (b % 16 * 4 + c / 64) :=
      byteSextet_sextetByte _ (by omega)
    have e4 : byteSextet (sextetByte (c % 64)) = some (c % 64) :=
      byteSextet_sextetByte _ (by omega)
    have n3 : ¬ sextetByte (b % 16 * 4 + c / 64) = 61 := sextetByte_ne_61 _ (by omega)
    have n4 : ¬ sextetByte (c % 64) = 61 := sextetByte_ne_61 _ (by omega)
    simp only [encodeB64, decodeB64, e1, e2, e3, e4, if_neg n3, if_neg n4,
      Option.map_some']
    simp only [Option.some.injEq, List.cons.injEq, and_true]
    omega

theorem natDigits_mem : ∀ n x, x ∈ natDigits n → 48 ≤ x ∧ x ≤ 57 := by
  intro n
  induction n using Nat.strong_induction_on with
  | _ n ih =>
    intro x hx
    by_cases h0 : n = 0
    · subst h0
      rw [natDigits] at hx
      simp at hx
    · rw [natDigits, dif_neg h0] at hx
      rcases List.mem_append.mp hx with hx | hx
      · exact ih (n / 10) (Nat.div_lt_self (by omega) (by omega)) x hx
      · have : x = 48 + n % 10 := List.mem_singleton.mp hx
        omega

theorem natDigits_ne_nil (n : Nat) (h : n ≠ 0) : natDigits n ≠ [] := by
  rw [natDigits, dif_neg h]
  simp

theorem parseDecAux_natDigits :
    ∀ n rest acc, parseDecAux (natDigits n ++ rest) acc =
      parseDecAux rest (acc * 10 ^ (natDigits n).length + n) := by
  intro n
  induction n using Nat.strong_induction_on with
  | _ n ih =>
    intro rest acc
    by_cases h0 : n = 0
    · subst h0
      rw [natDigits]
      simp [parseDecAux]
    · rw [natDigits, dif_neg h0, List.append_assoc,
        ih (n / 10) (Nat.div_lt_self (by omega) (by omega))]
      simp only [List.singleton_append, parseDecAux, List.length_append,
        List.length_cons, List.length_nil]
      rw [if_pos (by omega)]
      congr 1
      rw [pow_succ]
      generalize (10 : Nat) ^ (natDigits (n / 10)).length = m
      have e0 : 48 + n % 10 - 48 = n % 10 := by omega
      have hdm : n / 10 * 10 + n % 10 = n := by omega
      calc (acc * m + n / 10) * 10 + (48 + n % 10 - 48)
          = acc * (m * 10) + (n / 10 * 10 + n % 10) := by rw [e0]; ring
        _ = acc * (m * 10) + n := by rw [hdm]

theorem parseU64_natToStringBytes (t : Nat) (h : t < 2 ^ 64) :
    parseU64Radix10 (natToStringBytes t) = some t := by
  by_cases h0 : t = 0
  · subst h0
    rfl
  · cases hnd : natDigits t with
    | nil => exact absurd hnd (natDigits_ne_nil t h0)
    | cons b bs =>
      have hb : 48 ≤ b ∧ b ≤ 57 := natDigits_mem t b (by rw [hnd]; simp)
      have hparse : parseDecAux (b :: bs) 0 = some t := by
        have h1 := parseDecAux_natDigits t [] 0
        rw [List.append_nil, hnd] at h1
        simpa [parseDecAux] using h1
      rw [natToStringBytes, if_neg h0, hnd]
      simp only [parseU64Radix10]
      rw [if_neg (by omega : ¬ b = 43)]
      rw [if_neg (by simp : ¬ (b :: bs : List Nat) = [])]
      rw [hparse]
      simp only [Option.some_bind]
      rw [if_pos h]

/-- Claim C5: for every point in time representable as a non-negative
count of seconds since epoch in a `u64`, decoding the encoded cursor
yields the time back: base64-decode then decimal parse inverts base64 of
the decimal string. -/
theorem cursor_roundtrip (t : Nat) (h : t < 2 ^ 64) :
    decode_cursor (encode_cursor t) = some t := by
  have hbound : ∀ x ∈ natToStringBytes t, x < 256 := by
    intro x hx
    rw [natToStringBytes] at hx
    by_cases h0 : t = 0
    · rw [if_pos h0] at hx
      have : x = 48 := List.mem_singleton.mp hx
      omega
    · rw [if_neg h0] at hx
      have := natDigits_mem t x hx
      omega
  rw [decode_cursor, encode_cursor, decodeB64_encodeB64 _ hbound]
  simp only [Option.some_bind]
  exact parseU64_natToStringBytes t h

/-- Claim C5 witness: the round trip at the concrete time 1572251703
(the `start_time` appearing in the repository's test fixture). -/
theorem cursor_roundtrip_witness :
    decode_cursor (encode_cursor 1572251703) = some 1572251703 :=
  cursor_roundtrip 1572251703 (by decide)

theorem fetchLoop_trace_le
    (resp : Nat → Nat → Except FipClientError (List TimelineItem × PageInfo)) (untilT : Nat) :
    ∀ (fuel itrs current : Nat) (acc : List TimelineItem), max_pages - itrs ≤ fuel →
      (fetchLoop resp untilT itrs current acc).2.length ≤ max_pages - itrs + 1 := by
  intro fuel
  induction fuel with
  | zero =>
    intro itrs current acc hf
    rw [fetchLoop]
    cases hr : resp itrs current with
    | error e => simp
    | ok page =>
      cases hd : decodeCursorStr page.2.end_cursor with
      | none => simp [hd]
      | some end_sec =>
        simp only [hd]
        rw [dif_pos (Or.inl (by omega : max_pages ≤ itrs))]
        simp
  | succ n ih =>
    intro itrs current acc hf
    rw [fetchLoop]
    cases hr : resp itrs current with
    | error e => simp
    | ok page =>
      cases hd : decodeCursorStr page.2.end_cursor with
      | none => simp [hd]
      | some end_sec =>
        simp only [hd]
        by_cases hc : max_pages ≤ itrs ∨ page.2.has_next_page = false ∨ end_sec < untilT
        · rw [dif_pos hc]
          simp
        · rw [dif_neg hc]
          have h1 : ¬ max_pages ≤ itrs := fun hle => hc (Or.inl hle)
          have h2 := ih (itrs + 1) end_sec (acc ++ page.1) (by omega)
          simp only [List.length_cons]
          omega

theorem fetchLoop_boundary
    (resp : Nat → Nat → Except FipClientError (List TimelineItem × PageInfo)) (untilT : Nat) :
    ∀ (fuel itrs current : Nat) (acc : List TimelineItem), max_pages - itrs ≤ fuel →
      untilT ≤ current → ∀ t ∈ (fetchLoop resp untilT itrs current acc).2, untilT ≤ t := by
  intro fuel
  induction fuel with
  | zero =>
    intro itrs current acc hf hcur t ht
    rw [fetchLoop] at ht
    cases hr : resp itrs current with
    | error e =>
      simp [hr] at ht
      omega
    | ok page =>
      cases hd : decodeCursorStr page.2.end_cursor with
      | none =>
        simp [hr, hd] at ht
        omega
      | some end_sec =>
        simp only [hr, hd] at ht
        rw [dif_pos (Or.inl (by omega : max_pages ≤ itrs))] at ht
        simp at ht
        omega
  | succ n ih =>
    intro itrs current acc hf hcur t ht
    rw [fetchLoop] at ht
    cases hr : resp itrs current with
    | error e =>
      simp [hr] at ht
      omega
    | ok page =>
      cases hd : decodeCursorStr page.2.end_cursor with
      | none =>
        simp [hr, hd] at ht
        omega
      | some end_sec =>
        simp only [hr, hd] at ht
        by_cases hc : max_pages ≤ itrs ∨ page.2.has_next_page = false ∨ end_sec < untilT
        · rw [dif_pos hc] at ht
          simp at ht
          omega
        · rw [dif_neg hc] at ht
          simp only [List.mem_cons] at ht
          rcases ht with rfl | ht2
          · exact hcur
          · have h1 : ¬ max_pages ≤ itrs := fun hle => hc (Or.inl hle)
            have h3 : untilT ≤ end_sec := by
              rcases not_or.mp hc with ⟨_, hc2⟩
              rcases not_or.mp hc2 with ⟨_, hc3⟩
              omega
            exact ih (itrs + 1) end_sec (acc ++ page.1) (by omega) h3 t ht2

/-- Claim C6: for every transport (hence every sequence of upstream
responses, decodable cursors or not), the pagination walk of
`fetch_last_songs` issues at most `max_pages + 1 = 101` page fetches. -/
theorem fetch_last_songs_fetch_bound
    (transport : Nat → Nat → Nat → Except FipClientError (List TimelineItem × PageInfo))
    (now dur : Nat) :
    (fetch_last_songs transport now dur).2.length ≤ 101 := by
  have h := fetchLoop_trace_le (fun i t => (retryCrate fipRetryDelays (transport i t)).1)
    (now - dur) max_pages 0 now [] (by omega)
  rw [fetch_last_songs]
  have hmp : max_pages = 100 := rfl
  omega

/-- Claim C7: no page fetch of `fetch_last_songs` is ever issued at a
time strictly below the boundary `now - dur`; in particular the loop
exits before fetching at a decoded cursor that fell below the boundary. -/
theorem fetch_last_songs_boundary
    (transport : Nat → Nat → Nat → Except FipClientError (List TimelineItem × PageInfo))
    (now dur t : Nat) (ht : t ∈ (fetch_last_songs transport now dur).2) :
    now - dur ≤ t := by
  have h := fetchLoop_boundary (fun i t2 => (retryCrate fipRetryDelays (transport i t2)).1)
    (now - dur) max_pages 0 now [] (by omega) (Nat.sub_le now dur)
  apply h
  rw [fetch_last_songs] at ht
  exact ht

/-- Claim C7 witness: the boundary property at a concrete run (failing
transport, `now = 5`, `dur = 3`, single fetch at time 5). -/
theorem fetch_last_songs_boundary_witness : (5 : Nat) - 3 ≤ 5 :=
  fetch_last_songs_boundary alwaysFailTransport 5 3 5
    (by rw [fetch_last_songs, fetchLoop]; exact List.mem_singleton.mpr rfl)

theorem bytesLeB_total : ∀ x y : List Nat, bytesLeB x y = true ∨ bytesLeB y x = true
  | [], _ => Or.inl rfl
  | _ :: _, [] => Or.inr rfl
  | a :: as, b :: bs => by
    rcases Nat.lt_trichotomy a b with h | h | h
    · left
      simp [bytesLeB, h]
    · subst h
      rcases bytesLeB_total as bs with h2 | h2
      · left
        simp [bytesLeB, h2]
      · right
        simp [bytesLeB, h2]
    · right
      simp [bytesLeB, h]

theorem bytesLeB_trans :
    ∀ x y z : List Nat, bytesLeB x y = true → bytesLeB y z = true → bytesLeB x z = true
  | [], _, _, _, _ => rfl
  | _ :: _, [], _, h1, _ => by simp [bytesLeB] at h1
  | _ :: _, _ :: _, [], _, h2 => by simp [bytesLeB] at h2
  | a :: as, b :: bs, c :: cs, h1, h2 => by
    simp only [bytesLeB] at h1 h2 ⊢
    by_cases hab : a < b
    · by_cases hbc : b < c
      · rw [if_pos (by omega : a < c)]
      · by_cases hcb : c < b
        · rw [if_neg hbc, if_pos hcb] at h2
          simp at h2
        · rw [if_pos (by omega : a < c)]
    · by_cases hba : b < a
      · rw [if_neg hab, if_pos hba] at h1
        simp at h1
      · have hab2 : a = b := by omega
        subst hab2
        rw [if_neg hab, if_neg hba] at h1
        by_cases hac : a < c
        · rw [if_pos hac]
        · by_cases hca : c < a
          · rw [if_neg hac, if_pos hca] at h2
            simp at h2
          · rw [if_neg hac, if_neg hca] at h2 ⊢
            exact bytesLeB_trans as bs cs h1 h2

instance : IsTotal TimelineItem titleLe :=
  ⟨fun a b => bytesLeB_total (a.subtitle.toList.map Char.toNat) (b.subtitle.toList.map Char.toNat)⟩

instance : IsTrans TimelineItem titleLe :=
  ⟨fun _ _ _ h1 h2 => bytesLeB_trans _ _ _ h1 h2⟩

/-- Claim C9: `count_occurences` mutates its input vector: on any
non-empty input the caller's vector ends up reordered (sorted ascending
by title) with its last element removed — in particular it is never left
unchanged. -/
theorem count_occurences_mutates_input (l : List TimelineItem) (h : l ≠ []) :
    (count_occurences l).map Prod.fst = some ((sortSongs l).dropLast) ∧
    ((sortSongs l).dropLast).length + 1 = l.length ∧
    List.Sorted titleLe ((sortSongs l).dropLast) ∧
    (sortSongs l).dropLast ≠ l := by
  have hlen : (sortSongs l).length = l.length := (List.perm_insertionSort titleLe l).length_eq
  have hpos : 0 < l.length := List.length_pos.mpr h
  have hne : sortSongs l ≠ [] := by
    intro he
    rw [he] at hlen
    simp at hlen
    omega
  have hlast := List.getLast?_eq_getLast (sortSongs l) hne
  have hd : ((sortSongs l).dropLast).length = (sortSongs l).length - 1 :=
    List.length_dropLast _
  refine ⟨?_, by omega, ?_, ?_⟩
  · simp only [count_occurences, hlast, Option.map_some']
  · exact List.Pairwise.sublist (List.dropLast_sublist _) (List.sorted_insertionSort titleLe l)
  · intro he
    have h2 : ((sortSongs l).dropLast).length = l.length := by rw [he]
    omega

/-- Claim C9 witness: the mutation property at the concrete two-event
input with titles `A` and `B`. -/
theorem count_occurences_mutates_input_witness :
    (count_occurences [mkItem "A", mkItem "B"]).map Prod.fst =
      some ((sortSongs [mkItem "A", mkItem "B"]).dropLast) ∧
    ((sortSongs [mkItem "A", mkItem "B"]).dropLast).length + 1 =
      ([mkItem "A", mkItem "B"] : List TimelineItem).length ∧
    List.Sorted titleLe ((sortSongs [mkItem "A", mkItem "B"]).dropLast) ∧
    (sortSongs [mkItem "A", mkItem "B"]).dropLast ≠ [mkItem "A", mkItem "B"] :=
  count_occurences_mutates_input [mkItem "A", mkItem "B"] (by decide)

end DiscoverFiply
